import Mathlib

/-!
Verification of the VLC deinterlacer plugin
(`modules/video_filter/deinterlace/deinterlace.c`, vlc 2002-10-11).

The C file is shallowly embedded below.  Pixel buffers are modelled as total
functions `Nat → Nat` (byte value at a flat offset); a `u8` load is masked
with `% 256` exactly where the C code reads through a `u8 *`, and `memcpy`
moves cell values verbatim.  Pointers become `Nat` offsets from the start of
the buffer.  `mtime_t` timestamps become `Int`, and the C `/` on signed
integers is `Int.tdiv` (truncation toward zero).  Every C `while` loop is
embedded as structural recursion on an explicit fuel counter whose body and
guard mirror the loop; call sites supply fuel strictly larger than the byte
count the loop can traverse, so fuel never runs out on the executions the
theorems talk about (a fuel-out returns the buffer unchanged, standing for
the nonterminating executions the C code would perform with a zero pitch).
The blocking picture-acquisition loop of `Render` likewise uses fuel and
returns a distinguished `stuck` marker when it runs out, which `Render`
propagates as `none`; `none` also stands for the undefined behaviour of
reading the uninitialised `pp_outpic[1]` in single-rate Bob/Linear, a
combination the configuration stage never produces.
-/

/-! ### Merge (deinterlace.c lines 558-581)

`Merge` averages two byte runs.  The first `while` loop runs while more than
8 bytes remain before `p_end = p_dest + i_bytes - 8` and handles 8 bytes per
iteration; the second loop finishes the remaining tail one byte at a time.
`mergeByte` is one step: both `u8` loads are widened to `u16`, summed,
shifted right and stored back into a `u8` cell. -/

def mergeByte (x y : Nat) : Nat := ((x % 256 + y % 256) / 2) % 256

/-- The tail loop of `Merge`: one byte per iteration until the end. -/
def mergeTail : List Nat → List Nat → List Nat
  | x :: xs, y :: ys => mergeByte x y :: mergeTail xs ys
  | _, _ => []

/-- The unrolled loop of `Merge`: while at least 9 bytes remain
(`p_dest < p_dest0 + i_bytes - 8`), merge 8 bytes; then the tail loop. -/
def Merge : List Nat → List Nat → List Nat
  | x0 :: x1 :: x2 :: x3 :: x4 :: x5 :: x6 :: x7 :: x8 :: xs,
    y0 :: y1 :: y2 :: y3 :: y4 :: y5 :: y6 :: y7 :: y8 :: ys =>
      mergeByte x0 y0 :: mergeByte x1 y1 :: mergeByte x2 y2 :: mergeByte x3 y3 ::
      mergeByte x4 y4 :: mergeByte x5 y5 :: mergeByte x6 y6 :: mergeByte x7 y7 ::
      Merge (x8 :: xs) (y8 :: ys)
  | xs, ys => mergeTail xs ys

/-! ### Flat pixel buffers -/

/-- A pixel buffer: byte value at each flat offset. -/
abbrev Buf := Nat → Nat

/-- Bytes `[off, off+n)` of a buffer, as a list. -/
def readBytes (src : Buf) (off n : Nat) : List Nat :=
  (List.range n).map (fun k => src (off + k))

/-- Overwrite bytes `[off, off + xs.length)` of `dst` with `xs`. -/
def writeBytes (dst : Buf) (off : Nat) (xs : List Nat) : Buf :=
  fun q => if off ≤ q ∧ q < off + xs.length then xs.getD (q - off) 0 else dst q

/-- `pf_memcpy( dst+dOff, src+sOff, n )`. -/
def copyAt (dst : Buf) (dOff : Nat) (src : Buf) (sOff n : Nat) : Buf :=
  writeBytes dst dOff (readBytes src sOff n)

/-- `Merge( dst+dOff, s1+o1, s2+o2, n )` acting on flat buffers. -/
def MergeAt (dst : Buf) (dOff : Nat) (s1 : Buf) (o1 : Nat) (s2 : Buf) (o2 n : Nat) : Buf :=
  writeBytes dst dOff (Merge (readBytes s1 o1 n) (readBytes s2 o2 n))

/-! ### Planes and pictures -/

/-- One `picture_t` plane: `i_pitch`, `i_lines`, `p_pixels`. -/
structure Plane where
  pitch : Nat
  lines : Nat
  pixels : Buf

/-- A `picture_t`: presentation date (`mtime_t`) and its planes. -/
structure Picture where
  date : Int
  planes : List Plane

/-- The supported chroma four-character codes, plus a default case. -/
inductive Chroma where
  | I420
  | IYUV
  | YV12
  | I422
  | other
deriving DecidableEq

def DEINTERLACE_DISCARD : Nat := 1
def DEINTERLACE_MEAN : Nat := 2
def DEINTERLACE_BLEND : Nat := 3
def DEINTERLACE_BOB : Nat := 4
def DEINTERLACE_LINEAR : Nat := 5

/-! ### RenderBob (lines 371-438) -/

/-- The 4:2:0 row loop of `RenderBob` (also the 4:2:2 chroma loop, whose
`i_increment` is likewise `2 * i_pitch`): copy one source row to the
destination, step the destination by one source pitch and the source by two,
while `p_out < p_out_end`. -/
def bobLoop (p : Nat) (src : Buf) (dst : Buf) (inOff outOff outEnd fuel : Nat) : Buf :=
  match fuel with
  | 0 => dst
  | fuel' + 1 =>
    if outOff < outEnd then
      bobLoop p src (copyAt dst outOff src inOff p) (inOff + 2 * p) (outOff + p) outEnd fuel'
    else dst

/-- The 4:2:2 luma loop of `RenderBob`: each source row is copied twice. -/
def bob422YLoop (p : Nat) (src : Buf) (dst : Buf) (inOff outOff outEnd fuel : Nat) : Buf :=
  match fuel with
  | 0 => dst
  | fuel' + 1 =>
    if outOff < outEnd then
      bob422YLoop p src (copyAt (copyAt dst outOff src inOff p) (outOff + p) src inOff p)
        (inOff + 2 * p) (outOff + 2 * p) outEnd fuel'
    else dst

/-- `RenderBob` on one plane: start reading at `i_field * i_pitch`, stop when
the destination write offset reaches `i_pitch * i_lines` of the destination
plane. -/
def RenderBobPlane (chroma : Chroma) (planeIdx : Nat) (outPl srcPl : Plane)
    (field : Nat) : Plane :=
  let inOff := field * srcPl.pitch
  let outEnd := outPl.pitch * outPl.lines
  match chroma with
  | Chroma.I420 | Chroma.IYUV | Chroma.YV12 =>
      { outPl with pixels := bobLoop srcPl.pitch srcPl.pixels outPl.pixels inOff 0 outEnd (outEnd + 1) }
  | Chroma.I422 =>
      if planeIdx = 0 then
        { outPl with pixels := bob422YLoop srcPl.pitch srcPl.pixels outPl.pixels inOff 0 outEnd (outEnd + 1) }
      else
        { outPl with pixels := bobLoop srcPl.pitch srcPl.pixels outPl.pixels inOff 0 outEnd (outEnd + 1) }
  | Chroma.other => outPl

/-! ### RenderLinear (lines 443-495) -/

/-- The main loop of `RenderLinear`: copy one source row, then merge it with
the row two pitches further down, while `p_out < p_out_end` (where the bound
was already lowered by two output pitches).  Returns the final buffer
together with the final `p_in` and `p_out` offsets. -/
def linLoop (p : Nat) (src : Buf) (dst : Buf) (inOff outOff outEnd fuel : Nat) :
    Buf × Nat × Nat :=
  match fuel with
  | 0 => (dst, inOff, outOff)
  | fuel' + 1 =>
    if outOff < outEnd then
      linLoop p src
        (MergeAt (copyAt dst outOff src inOff p) (outOff + p) src inOff src (inOff + 2 * p) p)
        (inOff + 2 * p) (outOff + 2 * p) outEnd fuel'
    else (dst, inOff, outOff)

/-- `RenderLinear` on one plane: for the bottom field an extra copy of the
first source row is emitted first; the loop bound is `p_out_end` minus two
output pitches; after the loop one more row is copied, and for the top field
a final extra row is copied. -/
def RenderLinearPlane (outPl srcPl : Plane) (field : Nat) : Plane :=
  let p := srcPl.pitch
  let outEnd0 := outPl.pitch * outPl.lines
  let start : Buf × Nat × Nat :=
    if field = 1 then (copyAt outPl.pixels 0 srcPl.pixels 0 p, p, p)
    else (outPl.pixels, 0, 0)
  let res := linLoop p srcPl.pixels start.1 start.2.1 start.2.2
    (outEnd0 - 2 * outPl.pitch) (outEnd0 + 1)
  let buf1 := copyAt res.1 res.2.2 srcPl.pixels res.2.1 p
  { outPl with pixels :=
      if field = 0 then copyAt buf1 (res.2.2 + p) srcPl.pixels (res.2.1 + p) p
      else buf1 }

/-! ### RenderMean (lines 497-523) -/

/-- The loop of `RenderMean`: merge two consecutive source rows into one
destination row, stepping the source by two pitches. -/
def meanLoop (p : Nat) (src : Buf) (dst : Buf) (inOff outOff outEnd fuel : Nat) : Buf :=
  match fuel with
  | 0 => dst
  | fuel' + 1 =>
    if outOff < outEnd then
      meanLoop p src (MergeAt dst outOff src inOff src (inOff + p) p)
        (inOff + 2 * p) (outOff + p) outEnd fuel'
    else dst

/-- `RenderMean` on one plane. -/
def RenderMeanPlane (outPl srcPl : Plane) : Plane :=
  let p := srcPl.pitch
  let outEnd := outPl.pitch * outPl.lines
  { outPl with pixels := meanLoop p srcPl.pixels outPl.pixels 0 0 outEnd (outEnd + 1) }

/-! ### RenderBlend (lines 525-556) -/

/-- The loop of `RenderBlend`: merge each source row with its predecessor,
stepping both source and destination by one pitch. -/
def blendLoop (p : Nat) (src : Buf) (dst : Buf) (inOff outOff outEnd fuel : Nat) : Buf :=
  match fuel with
  | 0 => dst
  | fuel' + 1 =>
    if outOff < outEnd then
      blendLoop p src (MergeAt dst outOff src inOff src (inOff + p) p)
        (inOff + p) (outOff + p) outEnd fuel'
    else dst

/-- `RenderBlend` on one plane: first row is a plain copy, the remaining
rows are merges of each source row with its predecessor. -/
def RenderBlendPlane (outPl srcPl : Plane) : Plane :=
  let p := srcPl.pitch
  let outEnd := outPl.pitch * outPl.lines
  { outPl with pixels :=
      blendLoop p srcPl.pixels (copyAt outPl.pixels 0 srcPl.pixels 0 p) 0 p outEnd (outEnd + 1) }

/-! ### Picture-level transforms

Each `Render*` C function iterates `i_plane` over the source picture's
planes, transforming the destination plane of the same index. -/

def mapPlanes (f : Nat → Plane → Plane → Plane) : Nat → List Plane → List Plane → List Plane
  | _, [], _ => []
  | _, ds, [] => ds
  | i, d :: ds, s :: ss => f i d s :: mapPlanes f (i + 1) ds ss

def RenderBobPic (chroma : Chroma) (outpic pic : Picture) (field : Nat) : Picture :=
  let ps := mapPlanes (fun i d s => RenderBobPlane chroma i d s field) 0 outpic.planes pic.planes
  { outpic with planes := ps }

def RenderLinearPic (outpic pic : Picture) (field : Nat) : Picture :=
  let ps := mapPlanes (fun _ d s => RenderLinearPlane d s field) 0 outpic.planes pic.planes
  { outpic with planes := ps }

def RenderMeanPic (outpic pic : Picture) : Picture :=
  let ps := mapPlanes (fun _ d s => RenderMeanPlane d s) 0 outpic.planes pic.planes
  { outpic with planes := ps }

def RenderBlendPic (outpic pic : Picture) : Picture :=
  let ps := mapPlanes (fun _ d s => RenderBlendPlane d s) 0 outpic.planes pic.planes
  { outpic with planes := ps }

/-! ### The picture-acquisition loop of Render (lines 293-302 and 309-319)

`vout_CreatePicture` polling is modelled by `createPic : Nat → Option
Picture` (the result of the `t`-th poll) and the `b_die || b_error` flag by
`die : Nat → Bool`.  Exactly as in the C loop, the flag is consulted after a
failed poll, before sleeping and polling again. -/

inductive Acq where
  | got (p : Picture) (t : Nat)
  | dead
  | stuck

def acquire (createPic : Nat → Option Picture) (die : Nat → Bool) : Nat → Nat → Acq
  | t, 0 =>
    match createPic t with
    | some p => Acq.got p t
    | none => if die t then Acq.dead else Acq.stuck
  | t, fuel' + 1 =>
    match createPic t with
    | some p => Acq.got p t
    | none => if die t then Acq.dead else acquire createPic die (t + 1) fuel'

/-- Observable outcome of one `Render` call: the pictures handed to
`vout_DisplayPicture` in order, the number of pictures released through
`vout_DestroyPicture`, and the new `p_sys->last_date`. -/
structure RenderOut where
  submitted : List Picture
  destroyed : Nat
  state : Int

/-- `Render` (lines 288-366).  `none` stands for an execution the total
model cannot represent: the acquisition loop outrunning its fuel, or the
read of the uninitialised `pp_outpic[1]` that single-rate Bob/Linear would
perform (a combination `Create` never produces). -/
def Render (mode : Nat) (double : Bool) (chroma : Chroma) (last_date : Int)
    (createPic : Nat → Option Picture) (die : Nat → Bool) (fuel : Nat)
    (pic : Picture) : Option RenderOut :=
  match acquire createPic die 0 fuel with
  | Acq.stuck => none
  | Acq.dead => some ⟨[], 0, last_date⟩
  | Acq.got out0 t0 =>
    let out0 := { out0 with date := pic.date }
    if double then
      match acquire createPic die (t0 + 1) fuel with
      | Acq.stuck => none
      | Acq.dead => some ⟨[], 1, last_date⟩
      | Acq.got out1 _ =>
        let date1 := if last_date = 0 then pic.date + 20000
          else Int.tdiv (3 * pic.date - last_date) 2
        let out1 := { out1 with date := date1 }
        let last' := pic.date
        if mode = DEINTERLACE_DISCARD then
          some ⟨[RenderBobPic chroma out0 pic 0], 0, last'⟩
        else if mode = DEINTERLACE_BOB then
          some ⟨[RenderBobPic chroma out0 pic 0, RenderBobPic chroma out1 pic 1], 0, last'⟩
        else if mode = DEINTERLACE_LINEAR then
          some ⟨[RenderLinearPic out0 pic 0, RenderLinearPic out1 pic 1], 0, last'⟩
        else if mode = DEINTERLACE_MEAN then
          some ⟨[RenderMeanPic out0 pic], 0, last'⟩
        else if mode = DEINTERLACE_BLEND then
          some ⟨[RenderBlendPic out0 pic], 0, last'⟩
        else
          some ⟨[], 0, last'⟩
    else
      if mode = DEINTERLACE_DISCARD then
        some ⟨[RenderBobPic chroma out0 pic 0], 0, last_date⟩
      else if mode = DEINTERLACE_MEAN then
        some ⟨[RenderMeanPic out0 pic], 0, last_date⟩
      else if mode = DEINTERLACE_BLEND then
        some ⟨[RenderBlendPic out0 pic], 0, last_date⟩
      else if mode = DEINTERLACE_BOB ∨ mode = DEINTERLACE_LINEAR then
        none
      else
        some ⟨[], 0, last_date⟩

/-- Drive `Render` over a sequence of input pictures, threading
`p_sys->last_date` and concatenating the submitted outputs in order. -/
def renderAll (mode : Nat) (double : Bool) (chroma : Chroma)
    (createPic : Nat → Option Picture) (die : Nat → Bool) (fuel : Nat) :
    Int → List Picture → Option (List Picture × Int)
  | last, [] => some ([], last)
  | last, pic :: rest =>
    match Render mode double chroma last createPic die fuel pic with
    | none => none
    | some r =>
      match renderAll mode double chroma createPic die fuel r.state rest with
      | none => none
      | some (outs, final) => some (r.submitted ++ outs, final)

/-- An acquisition environment where a destination picture is always free. -/
def happyEnv (outP : Picture) : Nat → Option Picture := fun _ => some outP

/-! ### Create (lines 99-168) -/

/-- Observable outcome of `Create`: the fields of `vout_sys_t` it
initialises, whether the invalid/missing-mode warning was issued, and the
return code. -/
structure CreateResult where
  i_mode : Nat
  b_double_rate : Bool
  last_date : Int
  warned : Bool
  ret : Nat
deriving DecidableEq

/-- `Create`, given the `deinterlace-mode` configuration string
(`none` models a NULL `config_GetPsz` result); the malloc is assumed to
succeed.  Defaults are set first (`DISCARD`, no double rate, `last_date`
0), then the string comparisons run in source order. -/
def Create (psz_method : Option String) : CreateResult :=
  match psz_method with
  | none => ⟨DEINTERLACE_DISCARD, false, 0, true, 0⟩
  | some s =>
    if s = "discard" then ⟨DEINTERLACE_DISCARD, false, 0, false, 0⟩
    else if s = "mean" then ⟨DEINTERLACE_MEAN, false, 0, false, 0⟩
    else if s = "blend" ∨ s = "average" ∨ s = "combine-fields" then
      ⟨DEINTERLACE_BLEND, false, 0, false, 0⟩
    else if s = "bob" ∨ s = "progressive-scan" then ⟨DEINTERLACE_BOB, true, 0, false, 0⟩
    else if s = "linear" then ⟨DEINTERLACE_LINEAR, true, 0, false, 0⟩
    else ⟨DEINTERLACE_DISCARD, false, 0, true, 0⟩

/-! ### Init (lines 173-250) -/

/-- The geometry passed to `vout_CreateThread`. -/
structure Geometry where
  width : Nat
  height : Nat
  chroma : Chroma
  aspect : Nat
deriving DecidableEq

/-- `Init`: the output geometry requested from the spawned video output,
`none` when no output thread is created (unknown chroma, or a mode value
outside the 4:2:0 switch).  For the 4:2:0 family the height is halved for
Bob/Mean/Discard and kept for Blend/Linear; for I4:2:2 the full height is
always requested with an I420 output chroma. -/
def Init (c : Chroma) (mode w h aspect : Nat) : Option Geometry :=
  match c with
  | Chroma.I420 | Chroma.IYUV | Chroma.YV12 =>
    if mode = DEINTERLACE_BOB ∨ mode = DEINTERLACE_MEAN ∨ mode = DEINTERLACE_DISCARD then
      some ⟨w, h / 2, c, aspect⟩
    else if mode = DEINTERLACE_BLEND ∨ mode = DEINTERLACE_LINEAR then
      some ⟨w, h, c, aspect⟩
    else none
  | Chroma.I422 => some ⟨w, h, Chroma.I420, aspect⟩
  | Chroma.other => none

/-! ### Expected timestamp sequence for the double-rate monotonicity claim -/

/-- Input pictures with dates `A, A+d, A+2d, ...` and no planes. -/
def inputsFrom (d : Int) : Int → Nat → List Picture
  | _, 0 => []
  | a, n + 1 => Picture.mk a [] :: inputsFrom d (a + d) n

/-- Expected output dates of a constant-gap double-rate run after the first
frame: each frame emits its own date and the extrapolated midpoint. -/
def pairDates (d : Int) : Int → Nat → List Int
  | _, 0 => []
  | a, n + 1 => a :: (a + Int.tdiv d 2) :: pairDates d (a + d) n

/-! ## Basic lemmas -/

theorem mergeTail_eq_zipWith : ∀ a b, mergeTail a b = List.zipWith mergeByte a b := by
  intro a
  induction a with
  | nil => intro b; cases b <;> rfl
  | cons x xs ih =>
    intro b
    cases b with
    | nil => rfl
    | cons y ys => simp [mergeTail, ih]

theorem merge_eq_zipWith : ∀ a b, Merge a b = List.zipWith mergeByte a b := by
  intro a b
  induction a, b using Merge.induct with
  | case1 => simp_all [Merge]
  | case2 xs ys h =>
    rw [Merge.eq_def]
    split
    · next a0 a1 a2 a3 a4 a5 a6 a7 a8 as b0 b1 b2 b3 b4 b5 b6 b7 b8 bs =>
      exact (h a0 a1 a2 a3 a4 a5 a6 a7 a8 as b0 b1 b2 b3 b4 b5 b6 b7 b8 bs rfl rfl).elim
    · exact mergeTail_eq_zipWith _ _

theorem merge_length (a b : List Nat) : (Merge a b).length = min a.length b.length := by
  rw [merge_eq_zipWith]; exact List.length_zipWith ..

theorem readBytes_length (src : Buf) (off n : Nat) : (readBytes src off n).length = n := by
  simp [readBytes]

theorem readBytes_getD (src : Buf) (off : Nat) {k n : Nat} (h : k < n) :
    (readBytes src off n).getD k 0 = src (off + k) := by
  rw [readBytes, List.getD_eq_getElem?_getD, List.getElem?_map, List.getElem?_range h]
  rfl

theorem zipWith_mergeByte_getD :
    ∀ (a b : List Nat) (k : Nat), k < a.length → k < b.length →
      (List.zipWith mergeByte a b).getD k 0 = mergeByte (a.getD k 0) (b.getD k 0) := by
  intro a
  induction a with
  | nil => intro b k h1 _; simp at h1
  | cons x xs ih =>
    intro b k ha hb
    cases b with
    | nil => simp at hb
    | cons y ys =>
      cases k with
      | zero => rfl
      | succ k' =>
        simp only [List.zipWith_cons_cons, List.getD_cons_succ]
        exact ih ys k' (by simpa using ha) (by simpa using hb)

theorem writeBytes_apply (dst : Buf) (off : Nat) (xs : List Nat) (q : Nat) :
    writeBytes dst off xs q =
      if off ≤ q ∧ q < off + xs.length then xs.getD (q - off) 0 else dst q := rfl

theorem copyAt_apply (dst : Buf) (dOff : Nat) (src : Buf) (sOff n q : Nat) :
    copyAt dst dOff src sOff n q =
      if dOff ≤ q ∧ q < dOff + n then src (sOff + (q - dOff)) else dst q := by
  rw [copyAt, writeBytes_apply, readBytes_length]
  split
  · next h => exact readBytes_getD src sOff (by omega)
  · rfl

theorem mergeAt_apply (dst : Buf) (dOff : Nat) (s1 : Buf) (o1 : Nat) (s2 : Buf)
    (o2 n q : Nat) :
    MergeAt dst dOff s1 o1 s2 o2 n q =
      if dOff ≤ q ∧ q < dOff + n then
        mergeByte (s1 (o1 + (q - dOff))) (s2 (o2 + (q - dOff)))
      else dst q := by
  rw [MergeAt, writeBytes_apply, merge_length, readBytes_length, readBytes_length]
  simp only [Nat.min_self]
  split
  · next h =>
    rw [merge_eq_zipWith,
      zipWith_mergeByte_getD _ _ _ (by rw [readBytes_length]; omega) (by rw [readBytes_length]; omega),
      readBytes_getD s1 o1 (by omega), readBytes_getD s2 o2 (by omega)]
  · rfl

/-! ## The RenderBob row loop -/

theorem bobLoop_frame (p : Nat) (src : Buf) :
    ∀ (fuel : Nat) (dst : Buf) (inOff outOff outEnd q : Nat), q < outOff →
      bobLoop p src dst inOff outOff outEnd fuel q = dst q := by
  intro fuel
  induction fuel with
  | zero => intro dst inOff outOff outEnd q _; rfl
  | succ f ih =>
    intro dst inOff outOff outEnd q hq
    show bobLoop p src dst inOff outOff outEnd (f + 1) q = dst q
    rw [bobLoop]
    split
    · rw [ih _ _ _ _ _ (by omega), copyAt_apply]
      split
      · next h => omega
      · rfl
    · rfl

theorem bobLoop_rows (p : Nat) (src : Buf) :
    ∀ (n fuel : Nat) (dst : Buf) (inOff outOff outEnd : Nat), n ≤ fuel →
      (∀ k, k < n → outOff + k * p < outEnd) →
      outEnd ≤ outOff + n * p →
      ∀ j, j < n → ∀ i, i < p →
        bobLoop p src dst inOff outOff outEnd fuel (outOff + j * p + i)
          = src (inOff + 2 * j * p + i) := by
  intro n
  induction n with
  | zero => intro fuel dst inOff outOff outEnd _ _ _ j hj; omega
  | succ n ih =>
    intro fuel dst inOff outOff outEnd hf hlow hhigh j hj i hi
    cases fuel with
    | zero => omega
    | succ f =>
      have hcond : outOff < outEnd := by
        have := hlow 0 (by omega); simpa using this
      show bobLoop p src dst inOff outOff outEnd (f + 1) _ = _
      rw [bobLoop, if_pos hcond]
      cases j with
      | zero =>
        have hfr := bobLoop_frame p src f (copyAt dst outOff src inOff p)
          (inOff + 2 * p) (outOff + p) outEnd (outOff + 0 * p + i) (by omega)
        rw [hfr, copyAt_apply]
        split
        · next h => congr 1; omega
        · next h => omega
      | succ j' =>
        have harg : outOff + (j' + 1) * p + i = (outOff + p) + j' * p + i := by ring
        rw [harg]
        have hl' : ∀ k, k < n → (outOff + p) + k * p < outEnd := by
          intro k hk
          have := hlow (k + 1) (by omega)
          rw [Nat.succ_mul] at this
          omega
        have hh' : outEnd ≤ (outOff + p) + n * p := by
          rw [Nat.succ_mul] at hhigh
          omega
        rw [ih f _ _ _ _ (by omega) hl' hh' j' (by omega) i hi]
        congr 1; ring

/-! ## The RenderLinear main loop -/

theorem linLoop_frame (p : Nat) (src : Buf) :
    ∀ (fuel : Nat) (dst : Buf) (inOff outOff outEnd q : Nat), q < outOff →
      (linLoop p src dst inOff outOff outEnd fuel).1 q = dst q := by
  intro fuel
  induction fuel with
  | zero => intro dst inOff outOff outEnd q _; rfl
  | succ f ih =>
    intro dst inOff outOff outEnd q hq
    show (linLoop p src dst inOff outOff outEnd (f + 1)).1 q = dst q
    rw [linLoop]
    split
    · rw [ih _ _ _ _ _ (by omega), mergeAt_apply]
      split
      · next h => omega
      · rw [copyAt_apply]
        split
        · next h => omega
        · rfl
    · rfl

theorem linLoop_exit (p : Nat) (src : Buf) (fuel : Nat) (dst : Buf)
    (inOff outOff outEnd : Nat) (h : ¬ outOff < outEnd) :
    linLoop p src dst inOff outOff outEnd fuel = (dst, inOff, outOff) := by
  cases fuel with
  | zero => rfl
  | succ f => rw [linLoop, if_neg h]

theorem linLoop_offsets (p : Nat) (src : Buf) :
    ∀ (n fuel : Nat) (dst : Buf) (inOff outOff outEnd : Nat), n ≤ fuel →
      (∀ k, k < n → outOff + k * (2 * p) < outEnd) →
      outEnd ≤ outOff + n * (2 * p) →
      (linLoop p src dst inOff outOff outEnd fuel).2.1 = inOff + n * (2 * p) ∧
      (linLoop p src dst inOff outOff outEnd fuel).2.2 = outOff + n * (2 * p) := by
  intro n
  induction n with
  | zero =>
    intro fuel dst inOff outOff outEnd _ _ hhigh
    rw [linLoop_exit p src fuel dst inOff outOff outEnd (by omega)]
    constructor <;> simp
  | succ n ih =>
    intro fuel dst inOff outOff outEnd hf hlow hhigh
    cases fuel with
    | zero => omega
    | succ f =>
      have hcond : outOff < outEnd := by
        have := hlow 0 (by omega); simpa using this
      show (linLoop p src dst inOff outOff outEnd (f + 1)).2.1 = _ ∧
        (linLoop p src dst inOff outOff outEnd (f + 1)).2.2 = _
      rw [linLoop, if_pos hcond]
      have hl' : ∀ k, k < n → (outOff + 2 * p) + k * (2 * p) < outEnd := by
        intro k hk
        have := hlow (k + 1) (by omega)
        rw [Nat.succ_mul] at this
        omega
      have hh' : outEnd ≤ (outOff + 2 * p) + n * (2 * p) := by
        rw [Nat.succ_mul] at hhigh
        omega
      have hrec := ih f
        (MergeAt (copyAt dst outOff src inOff p) (outOff + p) src inOff src (inOff + 2 * p) p)
        (inOff + 2 * p) (outOff + 2 * p) outEnd (by omega) hl' hh'
      have e1 : inOff + (n + 1) * (2 * p) = (inOff + 2 * p) + n * (2 * p) := by ring
      have e2 : outOff + (n + 1) * (2 * p) = (outOff + 2 * p) + n * (2 * p) := by ring
      rw [e1, e2]
      exact hrec

theorem linLoop_rows (p : Nat) (src : Buf) :
    ∀ (n fuel : Nat) (dst : Buf) (inOff outOff outEnd : Nat), n ≤ fuel →
      (∀ k, k < n → outOff + k * (2 * p) < outEnd) →
      outEnd ≤ outOff + n * (2 * p) →
      ∀ j, j < n → ∀ i, i < p →
        (linLoop p src dst inOff outOff outEnd fuel).1 (outOff + j * (2 * p) + i)
          = src (inOff + j * (2 * p) + i) ∧
        (linLoop p src dst inOff outOff outEnd fuel).1 (outOff + j * (2 * p) + p + i)
          = mergeByte (src (inOff + j * (2 * p) + i)) (src (inOff + j * (2 * p) + 2 * p + i)) := by
  intro n
  induction n with
  | zero => intro fuel dst inOff outOff outEnd _ _ _ j hj; omega
  | succ n ih =>
    intro fuel dst inOff outOff outEnd hf hlow hhigh j hj i hi
    cases fuel with
    | zero => omega
    | succ f =>
      have hcond : outOff < outEnd := by
        have := hlow 0 (by omega); simpa using this
      show (linLoop p src dst inOff outOff outEnd (f + 1)).1 _ = _ ∧
        (linLoop p src dst inOff outOff outEnd (f + 1)).1 _ = _
      rw [linLoop, if_pos hcond]
      have hl' : ∀ k, k < n → (outOff + 2 * p) + k * (2 * p) < outEnd := by
        intro k hk
        have := hlow (k + 1) (by omega)
        rw [Nat.succ_mul] at this
        omega
      have hh' : outEnd ≤ (outOff + 2 * p) + n * (2 * p) := by
        rw [Nat.succ_mul] at hhigh
        omega
      cases j with
      | zero =>
        constructor
        · have hfr := linLoop_frame p src f
            (MergeAt (copyAt dst outOff src inOff p) (outOff + p) src inOff src (inOff + 2 * p) p)
            (inOff + 2 * p) (outOff + 2 * p) outEnd (outOff + 0 * (2 * p) + i) (by omega)
          rw [hfr, mergeAt_apply]
          split
          · next h => omega
          · rw [copyAt_apply]
            split
            · next h =>
              have e1 : outOff + 0 * (2 * p) + i - outOff = i := by omega
              have e2 : inOff + 0 * (2 * p) + i = inOff + i := by omega
              rw [e1, e2]
            · next h => omega
        · have hfr := linLoop_frame p src f
            (MergeAt (copyAt dst outOff src inOff p) (outOff + p) src inOff src (inOff + 2 * p) p)
            (inOff + 2 * p) (outOff + 2 * p) outEnd (outOff + 0 * (2 * p) + p + i) (by omega)
          rw [hfr, mergeAt_apply]
          split
          · next h =>
            have e1 : outOff + 0 * (2 * p) + p + i - (outOff + p) = i := by omega
            have e2 : inOff + 0 * (2 * p) + i = inOff + i := by omega
            have e3 : inOff + 0 * (2 * p) + 2 * p + i = inOff + 2 * p + i := by omega
            rw [e1, e2, e3]
          · next h => omega
      | succ j' =>
        have e1 : outOff + (j' + 1) * (2 * p) + i = (outOff + 2 * p) + j' * (2 * p) + i := by
          ring
        have e2 : outOff + (j' + 1) * (2 * p) + p + i
            = (outOff + 2 * p) + j' * (2 * p) + p + i := by ring
        have e3 : inOff + (j' + 1) * (2 * p) + i = (inOff + 2 * p) + j' * (2 * p) + i := by
          ring
        have e4 : inOff + (j' + 1) * (2 * p) + 2 * p + i
            = (inOff + 2 * p) + j' * (2 * p) + 2 * p + i := by ring
        rw [e1, e2, e3, e4]
        exact ih f _ (inOff + 2 * p) (outOff + 2 * p) outEnd (by omega) hl' hh' j' (by omega) i hi

/-! ## The RenderBlend row loop -/

theorem blendLoop_frame (p : Nat) (src : Buf) :
    ∀ (fuel : Nat) (dst : Buf) (inOff outOff outEnd q : Nat), q < outOff →
      blendLoop p src dst inOff outOff outEnd fuel q = dst q := by
  intro fuel
  induction fuel with
  | zero => intro dst inOff outOff outEnd q _; rfl
  | succ f ih =>
    intro dst inOff outOff outEnd q hq
    show blendLoop p src dst inOff outOff outEnd (f + 1) q = dst q
    rw [blendLoop]
    split
    · rw [ih _ _ _ _ _ (by omega), mergeAt_apply]
      split
      · next h => omega
      · rfl
    · rfl

theorem blendLoop_rows (p : Nat) (src : Buf) :
    ∀ (n fuel : Nat) (dst : Buf) (inOff outOff outEnd : Nat), n ≤ fuel →
      (∀ k, k < n → outOff + k * p < outEnd) →
      outEnd ≤ outOff + n * p →
      ∀ j, j < n → ∀ i, i < p →
        blendLoop p src dst inOff outOff outEnd fuel (outOff + j * p + i)
          = mergeByte (src (inOff + j * p + i)) (src (inOff + j * p + p + i)) := by
  intro n
  induction n with
  | zero => intro fuel dst inOff outOff outEnd _ _ _ j hj; omega
  | succ n ih =>
    intro fuel dst inOff outOff outEnd hf hlow hhigh j hj i hi
    cases fuel with
    | zero => omega
    | succ f =>
      have hcond : outOff < outEnd := by
        have := hlow 0 (by omega); simpa using this
      show blendLoop p src dst inOff outOff outEnd (f + 1) _ = _
      rw [blendLoop, if_pos hcond]
      have hl' : ∀ k, k < n → (outOff + p) + k * p < outEnd := by
        intro k hk
        have := hlow (k + 1) (by omega)
        rw [Nat.succ_mul] at this
        omega
      have hh' : outEnd ≤ (outOff + p) + n * p := by
        rw [Nat.succ_mul] at hhigh
        omega
      cases j with
      | zero =>
        have hfr := blendLoop_frame p src f
          (MergeAt dst outOff src inOff src (inOff + p) p)
          (inOff + p) (outOff + p) outEnd (outOff + 0 * p + i) (by omega)
        rw [hfr, mergeAt_apply]
        split
        · next h =>
          have e1 : outOff + 0 * p + i - outOff = i := by omega
          have e2 : inOff + 0 * p + i = inOff + i := by omega
          have e3 : inOff + 0 * p + p + i = inOff + (p + i) := by omega
          have e4 : inOff + p + i = inOff + (p + i) := by omega
          rw [e1, e2, e3, e4]
        · next h => omega
      | succ j' =>
        have e1 : outOff + (j' + 1) * p + i = (outOff + p) + j' * p + i := by ring
        have e2 : inOff + (j' + 1) * p + i = (inOff + p) + j' * p + i := by ring
        have e3 : inOff + (j' + 1) * p + p + i = (inOff + p) + j' * p + p + i := by ring
        rw [e1, e2, e3]
        exact ih f _ (inOff + p) (outOff + p) outEnd (by omega) hl' hh' j' (by omega) i hi

/-! ## Claim C1 -/

/-- Claim C1: for byte sequences `a`, `b` of equal length `n` (any `n`,
including lengths that are not a multiple of the 8-byte unrolling factor),
`Merge` produces `n` bytes with `dest[i] = ⌊(a[i] + b[i]) / 2⌋` for every
`i < n`; the widening to 16 bits makes the sum exact (no 8-bit overflow). -/
theorem C1_merge_correct (a b : List Nat) (n : Nat) (ha : a.length = n)
    (hb : b.length = n) (ha256 : ∀ x ∈ a, x < 256) (hb256 : ∀ x ∈ b, x < 256) :
    (Merge a b).length = n ∧
    ∀ i, i < n → (Merge a b).getD i 0 = (a.getD i 0 + b.getD i 0) / 2 := by
  constructor
  · rw [merge_length, ha, hb, Nat.min_self]
  · intro i hi
    have hma : a.getD i 0 ∈ a := by
      rw [List.getD_eq_getElem?_getD, List.getElem?_eq_getElem (by omega)]
      exact List.getElem_mem (by omega)
    have hmb : b.getD i 0 ∈ b := by
      rw [List.getD_eq_getElem?_getD, List.getElem?_eq_getElem (by omega)]
      exact List.getElem_mem (by omega)
    have h1 : a.getD i 0 < 256 := ha256 _ hma
    have h2 : b.getD i 0 < 256 := hb256 _ hmb
    rw [merge_eq_zipWith, zipWith_mergeByte_getD a b i (by omega) (by omega), mergeByte]
    omega

/-- Witness for C1, at length 11 (not a multiple of 8, so both the unrolled
loop and the one-byte tail run). -/
theorem C1_merge_correct_witness :
    (Merge [10, 20, 30, 40, 50, 60, 70, 80, 90, 100, 255]
        [11, 21, 31, 41, 51, 61, 71, 81, 91, 101, 254]).getD 9 0
      = (([10, 20, 30, 40, 50, 60, 70, 80, 90, 100, 255] : List Nat).getD 9 0
          + ([11, 21, 31, 41, 51, 61, 71, 81, 91, 101, 254] : List Nat).getD 9 0) / 2 :=
  (C1_merge_correct [10, 20, 30, 40, 50, 60, 70, 80, 90, 100, 255]
    [11, 21, 31, 41, 51, 61, 71, 81, 91, 101, 254] 11 rfl rfl
    (by decide) (by decide)).2 9 (by decide)

/-! ## Claim C7 -/

/-- Claim C7: `RenderBlend` copies source row 0 verbatim to destination row
0 (no merge), and every subsequent destination row `r` is the `Merge` of
source rows `r-1` and `r` (stated with `r = k+1`), over the full destination
height. -/
theorem C7_blend_rows (p N : Nat) (hp : 0 < p) (srcPl outPl : Plane)
    (hsp : srcPl.pitch = p) (hop : outPl.pitch = p) (hol : outPl.lines = N) :
    (∀ i, i < p → (RenderBlendPlane outPl srcPl).pixels i = srcPl.pixels i) ∧
    (∀ k, k + 1 < N → ∀ i, i < p →
      (RenderBlendPlane outPl srcPl).pixels ((k + 1) * p + i)
        = mergeByte (srcPl.pixels (k * p + i)) (srcPl.pixels ((k + 1) * p + i))) := by
  have hNp : N ≤ p * N + 1 := by
    have := Nat.le_mul_of_pos_left N hp
    omega
  constructor
  · intro i hi
    simp only [RenderBlendPlane, hsp, hop, hol]
    have hfr := blendLoop_frame p srcPl.pixels (p * N + 1)
      (copyAt outPl.pixels 0 srcPl.pixels 0 p) 0 p (p * N) i (by omega)
    rw [hfr, copyAt_apply]
    split
    · next h =>
      have e1 : 0 + (i - 0) = i := by omega
      rw [e1]
    · next h => omega
  · intro k hk i hi
    simp only [RenderBlendPlane, hsp, hop, hol]
    have hlow : ∀ j, j < N - 1 → p + j * p < p * N := by
      intro j hj
      have : (j + 1) * p < N * p := by
        rw [Nat.mul_lt_mul_right hp]
        omega
      rw [Nat.succ_mul] at this
      rw [Nat.mul_comm p N]
      omega
    have hhigh : p * N ≤ p + (N - 1) * p := by
      rcases N with _ | N'
      · omega
      · have e : (N' + 1 - 1) * p = N' * p := by rw [Nat.add_sub_cancel]
        rw [e, Nat.mul_comm p (N' + 1), Nat.succ_mul]
        omega
    have hrow := blendLoop_rows p srcPl.pixels (N - 1) (p * N + 1)
      (copyAt outPl.pixels 0 srcPl.pixels 0 p) 0 p (p * N) (by omega) hlow hhigh
      k (by omega) i hi
    have e1 : (k + 1) * p + i = p + k * p + i := by ring
    have e2 : 0 + k * p + i = k * p + i := by omega
    have e3 : 0 + k * p + p + i = (k + 1) * p + i := by ring
    rw [← e1] at hrow
    rw [e2, e3] at hrow
    exact hrow

/-- Witness for C7: a 1-byte-pitch, 3-row plane; destination row 2 is the
merge of source rows 1 and 2. -/
theorem C7_blend_rows_witness :
    (RenderBlendPlane (Plane.mk 1 3 (fun _ => 0)) (Plane.mk 1 3 (fun q => 10 * q))).pixels
        ((1 + 1) * 1 + 0)
      = mergeByte ((fun q => 10 * q) (1 * 1 + 0)) ((fun q => 10 * q) ((1 + 1) * 1 + 0)) :=
  (C7_blend_rows 1 3 (by decide) (Plane.mk 1 3 (fun q => 10 * q))
    (Plane.mk 1 3 (fun _ => 0)) rfl rfl rfl).2 1 (by decide) 0 (by decide)

/-! ## Render dispatch helpers -/

theorem acquire_happy (outP : Picture) (die : Nat → Bool) (t fuel : Nat) :
    acquire (happyEnv outP) die t fuel = Acq.got outP t := by
  cases fuel <;> rfl

/-! ## Claim C2 -/

/-- Claim C2: on a 4:2:0-family plane, one `RenderBob` call with field `f`
copies source rows `f, f+2, f+4, ...` verbatim into consecutive destination
rows (field 0 gives `[r0, r2, r4, ...]`, field 1 gives `[r1, r3, r5, ...]`);
`Render` in Discard mode invokes it exactly once with field 0, and in Bob
mode invokes it on two output pictures with fields 0 and 1. -/
theorem C2_bob_rows_and_dispatch (c : Chroma)
    (hc : c = Chroma.I420 ∨ c = Chroma.IYUV ∨ c = Chroma.YV12)
    (p : Nat) (hp : 0 < p) (idx : Nat) (srcPl outPl : Plane)
    (hsp : srcPl.pitch = p) (hop : outPl.pitch = p) (field : Nat) :
    (∀ j, j < outPl.lines → ∀ i, i < p →
        (RenderBobPlane c idx outPl srcPl field).pixels (j * p + i)
          = srcPl.pixels ((field + 2 * j) * p + i)) ∧
    (∀ (last : Int) (outP pic : Picture) (die : Nat → Bool) (fuel : Nat),
        Render DEINTERLACE_DISCARD false c last (happyEnv outP) die fuel pic
          = some ⟨[RenderBobPic c { outP with date := pic.date } pic 0], 0, last⟩) ∧
    (∀ (last : Int) (outP pic : Picture) (die : Nat → Bool) (fuel : Nat),
        Render DEINTERLACE_BOB true c last (happyEnv outP) die fuel pic
          = some ⟨[RenderBobPic c { outP with date := pic.date } pic 0,
              RenderBobPic c { outP with date := if last = 0 then pic.date + 20000 else Int.tdiv (3 * pic.date - last) 2 } pic 1], 0, pic.date⟩) := by
  refine ⟨?_, ?_, ?_⟩
  · intro j hj i hi
    have hfuel : outPl.lines ≤ p * outPl.lines + 1 := by
      have := Nat.le_mul_of_pos_left outPl.lines hp
      omega
    have hlow : ∀ k, k < outPl.lines → 0 + k * p < p * outPl.lines := by
      intro k hk
      have : k * p < outPl.lines * p := by
        rw [Nat.mul_lt_mul_right hp]
        omega
      rw [Nat.mul_comm p outPl.lines]
      omega
    have hhigh : p * outPl.lines ≤ 0 + outPl.lines * p := by
      rw [Nat.mul_comm p outPl.lines]
      omega
    have hrow := bobLoop_rows p srcPl.pixels outPl.lines (p * outPl.lines + 1)
      outPl.pixels (field * p) 0 (p * outPl.lines) hfuel hlow hhigh j hj i hi
    have e1 : 0 + j * p + i = j * p + i := by omega
    have e2 : field * p + 2 * j * p + i = (field + 2 * j) * p + i := by ring
    rw [e1, e2] at hrow
    rcases hc with rfl | rfl | rfl <;>
      · simp only [RenderBobPlane, hsp, hop]
        exact hrow
  · rcases hc with rfl | rfl | rfl <;>
      · intro last outP pic die fuel
        simp only [Render, acquire_happy, DEINTERLACE_DISCARD, DEINTERLACE_BOB,
          DEINTERLACE_LINEAR, DEINTERLACE_MEAN, DEINTERLACE_BLEND]
        simp
  · rcases hc with rfl | rfl | rfl <;>
      · intro last outP pic die fuel
        simp only [Render, acquire_happy, DEINTERLACE_DISCARD, DEINTERLACE_BOB,
          DEINTERLACE_LINEAR, DEINTERLACE_MEAN, DEINTERLACE_BLEND]
        simp

/-- Witness for C2: a 1-byte-pitch 4-row source, half-height destination;
with field 1, destination row 1 is source row 3; plus both dispatch shapes
at concrete pictures. -/
theorem C2_bob_rows_and_dispatch_witness :
    (RenderBobPlane Chroma.I420 0 (Plane.mk 1 2 (fun _ => 0)) (Plane.mk 1 4 (fun q => q)) 1).pixels
        (1 * 1 + 0) = (fun q : Nat => q) ((1 + 2 * 1) * 1 + 0) ∧
    Render DEINTERLACE_DISCARD false Chroma.I420 5 (happyEnv (Picture.mk 0 [])) (fun _ => false) 0 (Picture.mk 7 [])
      = some ⟨[RenderBobPic Chroma.I420 { Picture.mk 0 [] with date := (Picture.mk 7 []).date } (Picture.mk 7 []) 0], 0, 5⟩ ∧
    Render DEINTERLACE_BOB true Chroma.I420 5 (happyEnv (Picture.mk 0 [])) (fun _ => false) 0 (Picture.mk 7 [])
      = some ⟨[RenderBobPic Chroma.I420 { Picture.mk 0 [] with date := (Picture.mk 7 []).date } (Picture.mk 7 []) 0,
          RenderBobPic Chroma.I420 { Picture.mk 0 [] with date := if (5 : Int) = 0 then (Picture.mk 7 []).date + 20000 else Int.tdiv (3 * (Picture.mk 7 []).date - 5) 2 } (Picture.mk 7 []) 1], 0, (Picture.mk 7 []).date⟩ := by
  refine ⟨?_, ?_, ?_⟩
  · exact (C2_bob_rows_and_dispatch Chroma.I420 (Or.inl rfl) 1 (by decide) 0
      (Plane.mk 1 4 (fun q => q)) (Plane.mk 1 2 (fun _ => 0)) rfl rfl 1).1 1 (by decide) 0 (by decide)
  · exact (C2_bob_rows_and_dispatch Chroma.I420 (Or.inl rfl) 1 (by decide) 0
      (Plane.mk 1 4 (fun q => q)) (Plane.mk 1 2 (fun _ => 0)) rfl rfl 1).2.1 5
      (Picture.mk 0 []) (Picture.mk 7 []) (fun _ => false) 0
  · exact (C2_bob_rows_and_dispatch Chroma.I420 (Or.inl rfl) 1 (by decide) 0
      (Plane.mk 1 4 (fun q => q)) (Plane.mk 1 2 (fun _ => 0)) rfl rfl 1).2.2 5
      (Picture.mk 0 []) (Picture.mk 7 []) (fun _ => false) 0

/-! ## Claim C6 -/

/-- Claim C6: `RenderLinear` on a plane of even height `2m` (pitch `p`).
Field 0: even destination rows `2k` are verbatim copies of source rows `2k`,
each interior odd row `2k+1` is the `Merge` of the source rows `2k` and
`2k+2` straddling it, and the final row `2m-1` is the last source row.
Field 1: an extra copy of source row 0 comes first, the same
copy/interpolate alternation is shifted down one row (odd rows `2k+1` are
copies, interior even rows `2k+2` are merges of rows `2k+1` and `2k+3`), and
the final duplicate step is omitted. -/
theorem C6_linear_rows (p m : Nat) (hp : 0 < p) (hm : 1 ≤ m) (srcPl outPl : Plane)
    (hsp : srcPl.pitch = p) (hop : outPl.pitch = p) (hol : outPl.lines = 2 * m) :
    (∀ k, k < m → ∀ i, i < p →
        (RenderLinearPlane outPl srcPl 0).pixels (2 * k * p + i)
          = srcPl.pixels (2 * k * p + i)) ∧
    (∀ k, k + 1 < m → ∀ i, i < p →
        (RenderLinearPlane outPl srcPl 0).pixels ((2 * k + 1) * p + i)
          = mergeByte (srcPl.pixels (2 * k * p + i)) (srcPl.pixels ((2 * k + 2) * p + i))) ∧
    (∀ i, i < p →
        (RenderLinearPlane outPl srcPl 0).pixels ((2 * m - 1) * p + i)
          = srcPl.pixels ((2 * m - 1) * p + i)) ∧
    (∀ i, i < p → (RenderLinearPlane outPl srcPl 1).pixels i = srcPl.pixels i) ∧
    (∀ k, k < m → ∀ i, i < p →
        (RenderLinearPlane outPl srcPl 1).pixels ((2 * k + 1) * p + i)
          = srcPl.pixels ((2 * k + 1) * p + i)) ∧
    (∀ k, k + 1 < m → ∀ i, i < p →
        (RenderLinearPlane outPl srcPl 1).pixels ((2 * k + 2) * p + i)
          = mergeByte (srcPl.pixels ((2 * k + 1) * p + i)) (srcPl.pixels ((2 * k + 3) * p + i))) := by
  rcases m with _ | m'
  · omega
  have E0 : p * (2 * (m' + 1)) = m' * (2 * p) + 2 * p := by ring
  have E1 : p * (2 * (m' + 1)) - 2 * p = m' * (2 * p) := by omega
  have hfuel : m' ≤ p * (2 * (m' + 1)) + 1 := by
    have h1 : m' ≤ (2 * p) * m' := Nat.le_mul_of_pos_left m' (by omega)
    have h2 : (2 * p) * m' = m' * (2 * p) := by ring
    omega
  have hlow0 : ∀ j, j < m' → 0 + j * (2 * p) < m' * (2 * p) := by
    intro j hj
    have : j * (2 * p) < m' * (2 * p) := by
      rw [Nat.mul_lt_mul_right (by omega : 0 < 2 * p)]
      omega
    omega
  have hhigh0 : m' * (2 * p) ≤ 0 + m' * (2 * p) := by omega
  have hlow1 : ∀ j, j < m' → p + j * (2 * p) < m' * (2 * p) := by
    intro j hj
    have h1 : (j + 1) * (2 * p) ≤ m' * (2 * p) := mul_le_mul_right' (by omega) (2 * p)
    have h2 : (j + 1) * (2 * p) = j * (2 * p) + 2 * p := by ring
    omega
  have hhigh1 : m' * (2 * p) ≤ p + m' * (2 * p) := by omega
  refine ⟨?_, ?_, ?_, ?_, ?_, ?_⟩
  · -- field 0, even rows
    intro k hk i hi
    simp [RenderLinearPlane, hsp, hop, hol]
    rw [E1]
    have hoff := linLoop_offsets p srcPl.pixels m' (p * (2 * (m' + 1)) + 1)
      outPl.pixels 0 0 (m' * (2 * p)) hfuel hlow0 hhigh0
    rw [hoff.1, hoff.2]
    by_cases hk' : k < m'
    · have hb1 : (k + 1) * (2 * p) ≤ m' * (2 * p) := mul_le_mul_right' (by omega) (2 * p)
      have hb2 : (k + 1) * (2 * p) = 2 * k * p + 2 * p := by ring
      rw [copyAt_apply]
      split
      · next h => exact absurd h (by omega)
      rw [copyAt_apply]
      split
      · next h => exact absurd h (by omega)
      have hrows := linLoop_rows p srcPl.pixels m' (p * (2 * (m' + 1)) + 1)
        outPl.pixels 0 0 (m' * (2 * p)) hfuel hlow0 hhigh0 k hk' i hi
      have e : 2 * k * p + i = 0 + k * (2 * p) + i := by ring
      rw [e]
      exact hrows.1
    · have hkm : k = m' := by omega
      have e0 : m' * (2 * p) = 2 * k * p := by rw [hkm]; ring
      rw [copyAt_apply]
      split
      · next h => exact absurd h (by omega)
      rw [copyAt_apply]
      split
      · next h =>
        have e1 : 0 + m' * (2 * p) + (2 * k * p + i - (0 + m' * (2 * p))) = 2 * k * p + i := by
          omega
        rw [e1]
      · next h => exact (h (by omega)).elim
  · -- field 0, interior merge rows
    intro k hk i hi
    simp [RenderLinearPlane, hsp, hop, hol]
    rw [E1]
    have hoff := linLoop_offsets p srcPl.pixels m' (p * (2 * (m' + 1)) + 1)
      outPl.pixels 0 0 (m' * (2 * p)) hfuel hlow0 hhigh0
    rw [hoff.1, hoff.2]
    have hb1 : (k + 1) * (2 * p) ≤ m' * (2 * p) := mul_le_mul_right' (by omega) (2 * p)
    have hb2 : (k + 1) * (2 * p) = (2 * k + 1) * p + p := by ring
    rw [copyAt_apply]
    split
    · next h => exact absurd h (by omega)
    rw [copyAt_apply]
    split
    · next h => exact absurd h (by omega)
    have hrows := linLoop_rows p srcPl.pixels m' (p * (2 * (m' + 1)) + 1)
      outPl.pixels 0 0 (m' * (2 * p)) hfuel hlow0 hhigh0 k (by omega) i hi
    have e1 : (2 * k + 1) * p + i = 0 + k * (2 * p) + p + i := by ring
    have e2 : 2 * k * p + i = 0 + k * (2 * p) + i := by ring
    have e3 : (2 * k + 2) * p + i = 0 + k * (2 * p) + 2 * p + i := by ring
    rw [e1, e2, e3]
    exact hrows.2
  · -- field 0, final row
    intro i hi
    simp [RenderLinearPlane, hsp, hop, hol]
    rw [E1]
    have hoff := linLoop_offsets p srcPl.pixels m' (p * (2 * (m' + 1)) + 1)
      outPl.pixels 0 0 (m' * (2 * p)) hfuel hlow0 hhigh0
    rw [hoff.1, hoff.2]
    have eb : (2 * (m' + 1) - 1) * p = m' * (2 * p) + p := by
      have : 2 * (m' + 1) - 1 = 2 * m' + 1 := by omega
      rw [this]
      ring
    rw [copyAt_apply]
    split
    · next h =>
      have e1 : 0 + m' * (2 * p) + p + ((2 * (m' + 1) - 1) * p + i - (0 + m' * (2 * p) + p))
          = (2 * (m' + 1) - 1) * p + i := by omega
      rw [e1]
    · next h => exact (h (by omega)).elim
  · -- field 1, row 0
    intro i hi
    simp [RenderLinearPlane, hsp, hop, hol]
    rw [E1]
    have hoff := linLoop_offsets p srcPl.pixels m' (p * (2 * (m' + 1)) + 1)
      (copyAt outPl.pixels 0 srcPl.pixels 0 p) p p (m' * (2 * p)) hfuel hlow1 hhigh1
    rw [hoff.1, hoff.2]
    rw [copyAt_apply]
    split
    · next h => exact absurd h (by omega)
    have hfr := linLoop_frame p srcPl.pixels (p * (2 * (m' + 1)) + 1)
      (copyAt outPl.pixels 0 srcPl.pixels 0 p) p p (m' * (2 * p)) i (by omega)
    rw [hfr, copyAt_apply]
    split
    · next h =>
      have e1 : 0 + (i - 0) = i := by omega
      rw [e1]
    · next h => exact (h (by omega)).elim
  · -- field 1, odd copy rows
    intro k hk i hi
    simp [RenderLinearPlane, hsp, hop, hol]
    rw [E1]
    have hoff := linLoop_offsets p srcPl.pixels m' (p * (2 * (m' + 1)) + 1)
      (copyAt outPl.pixels 0 srcPl.pixels 0 p) p p (m' * (2 * p)) hfuel hlow1 hhigh1
    rw [hoff.1, hoff.2]
    by_cases hk' : k < m'
    · have hb1 : (k + 1) * (2 * p) ≤ m' * (2 * p) := mul_le_mul_right' (by omega) (2 * p)
      have hb2 : (k + 1) * (2 * p) = (2 * k + 1) * p + p := by ring
      rw [copyAt_apply]
      split
      · next h => exact absurd h (by omega)
      have hrows := linLoop_rows p srcPl.pixels m' (p * (2 * (m' + 1)) + 1)
        (copyAt outPl.pixels 0 srcPl.pixels 0 p) p p (m' * (2 * p)) hfuel hlow1 hhigh1
        k hk' i hi
      have e1 : (2 * k + 1) * p + i = p + k * (2 * p) + i := by ring
      rw [e1]
      exact hrows.1
    · have hkm : k = m' := by omega
      have e0 : m' * (2 * p) = k * (2 * p) := by rw [hkm]
      have e0b : (2 * k + 1) * p = p + k * (2 * p) := by ring
      rw [copyAt_apply]
      split
      · next h =>
        have e1 : p + m' * (2 * p) + ((2 * k + 1) * p + i - (p + m' * (2 * p)))
            = (2 * k + 1) * p + i := by omega
        rw [e1]
      · next h => exact (h (by omega)).elim
  · -- field 1, interior merge rows
    intro k hk i hi
    simp [RenderLinearPlane, hsp, hop, hol]
    rw [E1]
    have hoff := linLoop_offsets p srcPl.pixels m' (p * (2 * (m' + 1)) + 1)
      (copyAt outPl.pixels 0 srcPl.pixels 0 p) p p (m' * (2 * p)) hfuel hlow1 hhigh1
    rw [hoff.1, hoff.2]
    have hb1 : (k + 1) * (2 * p) ≤ m' * (2 * p) := mul_le_mul_right' (by omega) (2 * p)
    have hb2 : (k + 1) * (2 * p) = 2 * k * p + 2 * p := by ring
    have hb3 : (2 * k + 2) * p = 2 * k * p + 2 * p := by ring
    rw [copyAt_apply]
    split
    · next h => exact absurd h (by omega)
    have hrows := linLoop_rows p srcPl.pixels m' (p * (2 * (m' + 1)) + 1)
      (copyAt outPl.pixels 0 srcPl.pixels 0 p) p p (m' * (2 * p)) hfuel hlow1 hhigh1
      k (by omega) i hi
    have e1 : (2 * k + 2) * p + i = p + k * (2 * p) + p + i := by ring
    have e2 : (2 * k + 1) * p + i = p + k * (2 * p) + i := by ring
    have e3 : (2 * k + 3) * p + i = p + k * (2 * p) + 2 * p + i := by ring
    rw [e1, e2, e3]
    exact hrows.2

/-- Witness for C6 on a 1-byte-pitch, 4-row plane: field 0 interpolates
destination row 1 from source rows 0 and 2; field 1 interpolates destination
row 2 from source rows 1 and 3. -/
theorem C6_linear_rows_witness :
    (RenderLinearPlane (Plane.mk 1 4 (fun _ => 0)) (Plane.mk 1 4 (fun q => q)) 0).pixels
        ((2 * 0 + 1) * 1 + 0)
      = mergeByte ((Plane.mk 1 4 (fun q : Nat => q)).pixels (2 * 0 * 1 + 0))
          ((Plane.mk 1 4 (fun q : Nat => q)).pixels ((2 * 0 + 2) * 1 + 0)) ∧
    (RenderLinearPlane (Plane.mk 1 4 (fun _ => 0)) (Plane.mk 1 4 (fun q => q)) 1).pixels
        ((2 * 0 + 2) * 1 + 0)
      = mergeByte ((Plane.mk 1 4 (fun q : Nat => q)).pixels ((2 * 0 + 1) * 1 + 0))
          ((Plane.mk 1 4 (fun q : Nat => q)).pixels ((2 * 0 + 3) * 1 + 0)) :=
  ⟨(C6_linear_rows 1 2 (by decide) (by decide) (Plane.mk 1 4 (fun q => q))
      (Plane.mk 1 4 (fun _ => 0)) rfl rfl rfl).2.1 0 (by decide) 0 (by decide),
   (C6_linear_rows 1 2 (by decide) (by decide) (Plane.mk 1 4 (fun q => q))
      (Plane.mk 1 4 (fun _ => 0)) rfl rfl rfl).2.2.2.2.2 0 (by decide) 0 (by decide)⟩

/-! ## Double-rate Render helpers -/

/-- One happy-path double-rate `Render` call: both acquisitions succeed at
once; the first picture gets the source date, the second gets `date+20000`
when `last_date` is zero and the truncated extrapolation otherwise, and the
source date is recorded as the new `last_date`. -/
theorem render_double_happy (m : Nat)
    (hm : m = DEINTERLACE_BOB ∨ m = DEINTERLACE_LINEAR) (c : Chroma) (last : Int)
    (outP : Picture) (die : Nat → Bool) (fuel : Nat) (pic : Picture) :
    ∃ r, Render m true c last (happyEnv outP) die fuel pic = some r ∧
      r.submitted.map (fun q => q.date)
        = [pic.date, if last = 0 then pic.date + 20000
            else Int.tdiv (3 * pic.date - last) 2] ∧
      r.state = pic.date ∧ r.destroyed = 0 := by
  rcases hm with rfl | rfl
  · refine ⟨⟨[RenderBobPic c { outP with date := pic.date } pic 0,
        RenderBobPic c { outP with date := if last = 0 then pic.date + 20000 else Int.tdiv (3 * pic.date - last) 2 } pic 1], 0, pic.date⟩, ?_, ?_, rfl, rfl⟩
    · simp only [Render, acquire_happy, DEINTERLACE_DISCARD, DEINTERLACE_BOB,
        DEINTERLACE_LINEAR, DEINTERLACE_MEAN, DEINTERLACE_BLEND]
      simp
    · simp [RenderBobPic]
  · refine ⟨⟨[RenderLinearPic { outP with date := pic.date } pic 0,
        RenderLinearPic { outP with date := if last = 0 then pic.date + 20000 else Int.tdiv (3 * pic.date - last) 2 } pic 1], 0, pic.date⟩, ?_, ?_, rfl, rfl⟩
    · simp only [Render, acquire_happy, DEINTERLACE_DISCARD, DEINTERLACE_BOB,
        DEINTERLACE_LINEAR, DEINTERLACE_MEAN, DEINTERLACE_BLEND]
      simp
    · simp [RenderLinearPic]

/-- Truncated division by 2 of `2A + d` for nonnegative operands. -/
theorem tdiv_two_shift (A d : Int) (hA : 0 ≤ A) (hd : 0 ≤ d) :
    Int.tdiv (2 * A + d) 2 = A + Int.tdiv d 2 := by
  rw [Int.tdiv_eq_ediv (by omega) (by omega), Int.tdiv_eq_ediv hd (by omega)]
  omega

/-! ## Claim C3 -/

/-- Counterexample for C3 as stated: with recorded previous timestamp
`P = 1` and current timestamp `C = 0`, the code assigns the second picture
`(3*0 - 1) / 2` in C truncating division, which is `0`, while floor division
gives `-1`; so "integer (floor) division" is wrong for the code. -/
theorem C3_floor_division_cex :
    (Render DEINTERLACE_BOB true Chroma.I420 1 (happyEnv (Picture.mk 0 []))
        (fun _ => false) 0 (Picture.mk 0 [])).map
        (fun r => r.submitted.map (fun q => q.date)) = some [0, 0] ∧
    Int.fdiv (3 * 0 - 1) 2 = -1 ∧ (0 : Int) ≠ -1 := by
  exact ⟨by decide, by decide, by decide⟩

/-- Claim C3 (amended): in double-rate mode, when the recorded previous
timestamp `P` is nonzero the second output picture is timestamped
`(3*C - P) / 2` in C truncating (round-toward-zero) division — equal to
floor division whenever `3*C ≥ P` — when `P = 0` it is `C + 20000`, and
after timestamping the current timestamp `C` is recorded as previous. -/
theorem C3_timestamp_amended (m : Nat)
    (hm : m = DEINTERLACE_BOB ∨ m = DEINTERLACE_LINEAR) (c : Chroma) (last : Int)
    (outP : Picture) (die : Nat → Bool) (fuel : Nat) (pic : Picture) :
    (Render m true c last (happyEnv outP) die fuel pic).map
        (fun r => r.submitted.map (fun q => q.date))
      = some [pic.date, if last = 0 then pic.date + 20000
          else Int.tdiv (3 * pic.date - last) 2] ∧
    (Render m true c last (happyEnv outP) die fuel pic).map (fun r => r.state)
      = some pic.date ∧
    (∀ P : Int, P ≠ 0 → 0 ≤ 3 * pic.date - P →
        Int.tdiv (3 * pic.date - P) 2 = Int.fdiv (3 * pic.date - P) 2) := by
  obtain ⟨r, h1, h2, h3, _⟩ := render_double_happy m hm c last outP die fuel pic
  refine ⟨?_, ?_, ?_⟩
  · rw [h1]
    exact congrArg some h2
  · rw [h1]
    exact congrArg some h3
  · intro P _ hge
    rw [Int.tdiv_eq_ediv hge (by omega), Int.fdiv_eq_ediv]
    all_goals omega

/-- Witness for the amended C3 at `P = 7`, `C = 100`. -/
theorem C3_timestamp_amended_witness :
    (Render DEINTERLACE_BOB true Chroma.I420 7 (happyEnv (Picture.mk 0 []))
        (fun _ => false) 0 (Picture.mk 100 [])).map
        (fun r => r.submitted.map (fun q => q.date))
      = some [(Picture.mk 100 []).date, if (7 : Int) = 0 then (Picture.mk 100 []).date + 20000
          else Int.tdiv (3 * (Picture.mk 100 []).date - 7) 2] ∧
    (Render DEINTERLACE_BOB true Chroma.I420 7 (happyEnv (Picture.mk 0 []))
        (fun _ => false) 0 (Picture.mk 100 [])).map (fun r => r.state)
      = some (Picture.mk 100 []).date ∧
    Int.tdiv (3 * (Picture.mk 100 []).date - 7) 2
      = Int.fdiv (3 * (Picture.mk 100 []).date - 7) 2 := by
  have h := C3_timestamp_amended DEINTERLACE_BOB (Or.inl rfl) Chroma.I420 7
    (Picture.mk 0 []) (fun _ => false) 0 (Picture.mk 100 [])
  exact ⟨h.1, h.2.1, h.2.2 7 (by decide) (by decide)⟩

/-! ## Claim C10 -/

/-- Claim C10: the "no previous timestamp" test is `last_date = 0`, the
initial value set by `Create`; a frame rendered with presentation timestamp
exactly `0` records `last_date = 0`, so the next double-rate frame gets the
first-frame estimate `C + 20000` instead of the extrapolation — a genuine
recorded timestamp of 0 is indistinguishable from the unset state. -/
theorem C10_zero_sentinel (s : Option String) (m : Nat)
    (hm : m = DEINTERLACE_BOB ∨ m = DEINTERLACE_LINEAR) (c : Chroma)
    (outP : Picture) (die : Nat → Bool) (fuel : Nat) (C P : Int) :
    (Create s).last_date = 0 ∧
    (Render m true c P (happyEnv outP) die fuel (Picture.mk 0 [])).map
        (fun r => r.state) = some 0 ∧
    (Render m true c 0 (happyEnv outP) die fuel (Picture.mk C [])).map
        (fun r => r.submitted.map (fun q => q.date)) = some [C, C + 20000] := by
  refine ⟨?_, ?_, ?_⟩
  · rcases s with _ | t
    · rfl
    · simp only [Create]
      repeat' split
      all_goals rfl
  · obtain ⟨r, h1, _, h3, _⟩ := render_double_happy m hm c P outP die fuel (Picture.mk 0 [])
    rw [h1]
    exact congrArg some h3
  · obtain ⟨r, h1, h2, _, _⟩ := render_double_happy m hm c 0 outP die fuel (Picture.mk C [])
    rw [h1]
    exact congrArg some h2

/-- Witness for C10 with mode "bob", a predecessor recorded at 0, and a
current frame at `C = 42`. -/
theorem C10_zero_sentinel_witness :
    (Create (some "bob")).last_date = 0 ∧
    (Render DEINTERLACE_BOB true Chroma.I420 7 (happyEnv (Picture.mk 0 []))
        (fun _ => false) 0 (Picture.mk 0 [])).map (fun r => r.state) = some 0 ∧
    (Render DEINTERLACE_BOB true Chroma.I420 0 (happyEnv (Picture.mk 0 []))
        (fun _ => false) 0 (Picture.mk 42 [])).map
        (fun r => r.submitted.map (fun q => q.date)) = some [42, 42 + 20000] :=
  C10_zero_sentinel (some "bob") DEINTERLACE_BOB (Or.inl rfl) Chroma.I420
    (Picture.mk 0 []) (fun _ => false) 0 42 7

/-! ## Claim C5 -/

/-- Claim C5: the configuration-string mapping of `Create`: "discard" to
Discard, "mean" to Mean, "blend"/"average"/"combine-fields" to Blend,
"bob"/"progressive-scan" to Bob, "linear" to Linear; any other or absent
string falls back to Discard with a warning and still returns success; the
double-rate flag is true exactly for Bob and Linear. -/
theorem C5_selector (s : String)
    (hs : s ∉ ["discard", "mean", "blend", "average", "combine-fields", "bob",
      "progressive-scan", "linear"]) (os : Option String) :
    Create (some "discard") = ⟨DEINTERLACE_DISCARD, false, 0, false, 0⟩ ∧
    Create (some "mean") = ⟨DEINTERLACE_MEAN, false, 0, false, 0⟩ ∧
    Create (some "blend") = ⟨DEINTERLACE_BLEND, false, 0, false, 0⟩ ∧
    Create (some "average") = ⟨DEINTERLACE_BLEND, false, 0, false, 0⟩ ∧
    Create (some "combine-fields") = ⟨DEINTERLACE_BLEND, false, 0, false, 0⟩ ∧
    Create (some "bob") = ⟨DEINTERLACE_BOB, true, 0, false, 0⟩ ∧
    Create (some "progressive-scan") = ⟨DEINTERLACE_BOB, true, 0, false, 0⟩ ∧
    Create (some "linear") = ⟨DEINTERLACE_LINEAR, true, 0, false, 0⟩ ∧
    Create none = ⟨DEINTERLACE_DISCARD, false, 0, true, 0⟩ ∧
    Create (some s) = ⟨DEINTERLACE_DISCARD, false, 0, true, 0⟩ ∧
    ((Create os).b_double_rate = true ↔
      ((Create os).i_mode = DEINTERLACE_BOB ∨ (Create os).i_mode = DEINTERLACE_LINEAR)) ∧
    (Create os).ret = 0 := by
  refine ⟨by decide, by decide, by decide, by decide, by decide, by decide, by decide,
    by decide, by decide, ?_, ?_, ?_⟩
  · simp only [List.mem_cons, List.not_mem_nil, or_false, not_or] at hs
    obtain ⟨h1, h2, h3, h4, h5, h6, h7, h8⟩ := hs
    simp [Create, h1, h2, h3, h4, h5, h6, h7, h8]
  · rcases os with _ | t
    · decide
    · simp only [Create]
      repeat' split
      all_goals simp [DEINTERLACE_DISCARD, DEINTERLACE_MEAN, DEINTERLACE_BLEND,
        DEINTERLACE_BOB, DEINTERLACE_LINEAR]
  · rcases os with _ | t
    · rfl
    · simp only [Create]
      repeat' split
      all_goals rfl

/-- Witness for C5 at the unrecognized string "foo" and configuration
"bob". -/
theorem C5_selector_witness :
    Create (some "discard") = ⟨DEINTERLACE_DISCARD, false, 0, false, 0⟩ ∧
    Create (some "mean") = ⟨DEINTERLACE_MEAN, false, 0, false, 0⟩ ∧
    Create (some "blend") = ⟨DEINTERLACE_BLEND, false, 0, false, 0⟩ ∧
    Create (some "average") = ⟨DEINTERLACE_BLEND, false, 0, false, 0⟩ ∧
    Create (some "combine-fields") = ⟨DEINTERLACE_BLEND, false, 0, false, 0⟩ ∧
    Create (some "bob") = ⟨DEINTERLACE_BOB, true, 0, false, 0⟩ ∧
    Create (some "progressive-scan") = ⟨DEINTERLACE_BOB, true, 0, false, 0⟩ ∧
    Create (some "linear") = ⟨DEINTERLACE_LINEAR, true, 0, false, 0⟩ ∧
    Create none = ⟨DEINTERLACE_DISCARD, false, 0, true, 0⟩ ∧
    Create (some "foo") = ⟨DEINTERLACE_DISCARD, false, 0, true, 0⟩ ∧
    ((Create (some "bob")).b_double_rate = true ↔
      ((Create (some "bob")).i_mode = DEINTERLACE_BOB ∨
        (Create (some "bob")).i_mode = DEINTERLACE_LINEAR)) ∧
    (Create (some "bob")).ret = 0 :=
  C5_selector "foo" (by decide) (some "bob")

/-! ## Claim C8 -/

/-- Counterexample for C8 as stated: I4:2:2 is a supported input format,
yet with the Discard algorithm `Init` requests the full input height (480),
not half of it — the half-height rule does not hold for every supported
pixel format. -/
theorem C8_height_cex :
    Init Chroma.I422 DEINTERLACE_DISCARD 720 480 1
      = some ⟨720, 480, Chroma.I420, 1⟩ ∧ (480 : Nat) ≠ 480 / 2 := by
  exact ⟨rfl, by decide⟩

/-- Claim C8 (amended): at initialization (once, not per frame), for the
4:2:0-family chromas the requested output height is half the input height
for Discard/Bob/Mean and the full height for Blend/Linear; for I4:2:2 the
full height is always requested, with an I420 output chroma. -/
theorem C8_height_amended (c : Chroma)
    (hc : c = Chroma.I420 ∨ c = Chroma.IYUV ∨ c = Chroma.YV12)
    (mode w h aspect : Nat) :
    (mode = DEINTERLACE_DISCARD ∨ mode = DEINTERLACE_MEAN ∨ mode = DEINTERLACE_BOB →
        Init c mode w h aspect = some ⟨w, h / 2, c, aspect⟩) ∧
    (mode = DEINTERLACE_BLEND ∨ mode = DEINTERLACE_LINEAR →
        Init c mode w h aspect = some ⟨w, h, c, aspect⟩) ∧
    Init Chroma.I422 mode w h aspect = some ⟨w, h, Chroma.I420, aspect⟩ := by
  refine ⟨?_, ?_, rfl⟩
  · intro hmode
    rcases hc with rfl | rfl | rfl <;> rcases hmode with rfl | rfl | rfl <;> rfl
  · intro hmode
    rcases hc with rfl | rfl | rfl <;> rcases hmode with rfl | rfl <;> rfl

/-- Witness for the amended C8: I420 with Discard gets half height, I420
with Blend gets full height, I422 always full height. -/
theorem C8_height_amended_witness :
    Init Chroma.I420 DEINTERLACE_DISCARD 720 480 1 = some ⟨720, 480 / 2, Chroma.I420, 1⟩ ∧
    Init Chroma.I420 DEINTERLACE_BLEND 720 480 1 = some ⟨720, 480, Chroma.I420, 1⟩ ∧
    Init Chroma.I422 DEINTERLACE_MEAN 720 480 1 = some ⟨720, 480, Chroma.I420, 1⟩ :=
  ⟨(C8_height_amended Chroma.I420 (Or.inl rfl) DEINTERLACE_DISCARD 720 480 1).1 (Or.inl rfl),
   (C8_height_amended Chroma.I420 (Or.inl rfl) DEINTERLACE_BLEND 720 480 1).2.1 (Or.inl rfl),
   (C8_height_amended Chroma.I420 (Or.inl rfl) DEINTERLACE_MEAN 720 480 1).2.2⟩

/-! ## Claim C9 -/

/-- Claim C9: in double-rate mode, if the die/error signal is observed while
polling for the second destination picture after the first acquisition
succeeded, `Render` destroys (releases) the first picture and submits
nothing; and every iteration of the acquisition loop re-checks the signal
after a failed poll and returns `dead` immediately when it is set. -/
theorem C9_cancel_second_acquire (c : Chroma) (m : Nat) (last : Int)
    (createPic : Nat → Option Picture) (die : Nat → Bool) (fuel : Nat)
    (pic out0 : Picture) (t0 : Nat)
    (h1 : acquire createPic die 0 fuel = Acq.got out0 t0)
    (h2 : acquire createPic die (t0 + 1) fuel = Acq.dead) :
    Render m true c last createPic die fuel pic = some ⟨[], 1, last⟩ ∧
    (∀ (cp : Nat → Option Picture) (d : Nat → Bool) (t f : Nat),
        cp t = none → d t = true → acquire cp d t f = Acq.dead) := by
  constructor
  · simp only [Render, h1, h2]
    simp
  · intro cp d t f hcp hd
    cases f <;> simp [acquire, hcp, hd]

/-- Witness for C9: a pool with one free picture at poll 0 and none after,
with the die flag raised from poll 1 on; plus the per-iteration re-check at
a concrete blocked environment. -/
theorem C9_cancel_second_acquire_witness :
    Render 4 true Chroma.I420 9
        (fun t => if t = 0 then some (Picture.mk 0 []) else none)
        (fun t => t != 0) 5 (Picture.mk 0 []) = some ⟨[], 1, 9⟩ ∧
    acquire (fun _ => none) (fun _ => true) 3 7 = Acq.dead :=
  ⟨(C9_cancel_second_acquire Chroma.I420 4 9
      (fun t => if t = 0 then some (Picture.mk 0 []) else none)
      (fun t => t != 0) 5 (Picture.mk 0 []) (Picture.mk 0 []) 0 rfl rfl).1,
   (C9_cancel_second_acquire Chroma.I420 4 9
      (fun t => if t = 0 then some (Picture.mk 0 []) else none)
      (fun t => t != 0) 5 (Picture.mk 0 []) (Picture.mk 0 []) 0 rfl rfl).2
      (fun _ => none) (fun _ => true) 3 7 rfl rfl⟩

/-! ## Claim C4 -/

/-- The expected output-date list of a constant-gap double-rate run is
strictly increasing and bounded below by its starting date. -/
theorem pairDates_chain (d : Int) (hd : 2 ≤ d) :
    ∀ (n : Nat) (A : Int),
      List.Chain' (fun x y : Int => x < y) (pairDates d A n) ∧
      ∀ y ∈ pairDates d A n, A ≤ y := by
  intro n
  induction n with
  | zero =>
    intro A
    refine ⟨List.chain'_nil, ?_⟩
    intro y hy
    simp [pairDates] at hy
  | succ n ih =>
    intro A
    have hδ : 1 ≤ Int.tdiv d 2 ∧ Int.tdiv d 2 < d := by
      rw [Int.tdiv_eq_ediv (by omega : (0:Int) ≤ d) (by omega : (0:Int) ≤ 2)]
      omega
    obtain ⟨ihc, ihb⟩ := ih (A + d)
    constructor
    · show List.Chain' _ (A :: (A + Int.tdiv d 2) :: pairDates d (A + d) n)
      refine List.chain'_cons'.mpr ⟨?_, List.chain'_cons'.mpr ⟨?_, ihc⟩⟩
      · intro y hy
        simp at hy
        omega
      · intro y hy
        have := ihb y (List.mem_of_mem_head? hy)
        omega
    · intro y hy
      rw [pairDates] at hy
      simp only [List.mem_cons] at hy
      rcases hy with rfl | hy
      · omega
      rcases hy with rfl | hy
      · omega
      · have := ihb y hy
        omega

/-- A constant-gap double-rate run after the first frame: with the previous
date recorded as `A - d`, rendering frames dated `A, A+d, ...` emits exactly
the `pairDates` date sequence. -/
theorem renderAll_pair_dates (m : Nat)
    (hm : m = DEINTERLACE_BOB ∨ m = DEINTERLACE_LINEAR) (c : Chroma) (outP : Picture)
    (die : Nat → Bool) (fuel : Nat) (d : Int) (hd : 0 ≤ d) :
    ∀ (n : Nat) (A : Int), 1 ≤ A - d →
      ∃ res : List Picture × Int,
        renderAll m true c (happyEnv outP) die fuel (A - d) (inputsFrom d A n)
          = some res ∧
        res.1.map (fun q => q.date) = pairDates d A n := by
  intro n
  induction n with
  | zero =>
    intro A _
    exact ⟨([], A - d), rfl, rfl⟩
  | succ n ih =>
    intro A hA
    obtain ⟨r, h1, h2, h3, _⟩ :=
      render_double_happy m hm c (A - d) outP die fuel (Picture.mk A [])
    obtain ⟨res, hres, hdates⟩ := ih (A + d) (by omega)
    have e : A + d - d = A := by ring
    rw [e] at hres
    have h3' : r.state = A := h3
    refine ⟨(r.submitted ++ res.1, res.2), ?_, ?_⟩
    · simp only [inputsFrom, renderAll, h1, h3', hres]
    · rw [List.map_append, hdates, h2]
      have hne : ¬ (A - d = 0) := by omega
      rw [if_neg hne]
      have e2 : 3 * (Picture.mk A []).date - (A - d) = 2 * A + d := by
        show 3 * A - (A - d) = 2 * A + d
        ring
      rw [e2, tdiv_two_shift A d (by omega) hd]
      rfl

/-- Counterexample for C4 as stated: the strictly increasing input sequence
`10, 11` produces output timestamps `10, 20010, 11, 11`, which are not
strictly increasing (the first frame's `+20000` estimate overtakes the next
input, and `(3*11 - 10)/2 = 11` equals the first field's date). -/
theorem C4_monotone_cex :
    (renderAll DEINTERLACE_BOB true Chroma.I420 (happyEnv (Picture.mk 0 []))
        (fun _ => false) 0 0 [Picture.mk 10 [], Picture.mk 11 []]).map
        (fun res => res.1.map (fun q => q.date)) = some [10, 20010, 11, 11] ∧
    List.Chain' (fun x y : Int => x < y) [10, 11] ∧
    ¬ List.Chain' (fun x y : Int => x < y) [10, 20010, 11, 11] := by
  refine ⟨by decide, ?_, ?_⟩
  · simp [List.chain'_cons]
  · simp [List.chain'_cons]

/-- Claim C4 (amended): for double-rate input frames at a constant interval
`d > 20000` time units starting from a positive timestamp, the emitted
output timestamps are strictly increasing, and the second-field timestamp of
the first-ever frame is its input timestamp plus 20000. -/
theorem C4_monotone_amended (m : Nat)
    (hm : m = DEINTERLACE_BOB ∨ m = DEINTERLACE_LINEAR) (c : Chroma) (outP : Picture)
    (die : Nat → Bool) (fuel : Nat) (C d : Int) (hC : 1 ≤ C) (hd : 20000 < d) (n : Nat) :
    ∃ res : List Picture × Int,
      renderAll m true c (happyEnv outP) die fuel 0 (inputsFrom d C n) = some res ∧
      List.Chain' (fun x y : Int => x < y) (res.1.map (fun q => q.date)) ∧
      (1 ≤ n →
        res.1.map (fun q => q.date)
          = C :: (C + 20000) :: pairDates d (C + d) (n - 1)) := by
  cases n with
  | zero => exact ⟨([], 0), rfl, List.chain'_nil, by omega⟩
  | succ n' =>
    obtain ⟨r, h1, h2, h3, _⟩ := render_double_happy m hm c 0 outP die fuel (Picture.mk C [])
    have h3' : r.state = C := h3
    obtain ⟨res, hres, hdates⟩ :=
      renderAll_pair_dates m hm c outP die fuel d (by omega) n' (C + d) (by omega)
    have e : C + d - d = C := by ring
    rw [e] at hres
    have eD : (Picture.mk C []).date = C := rfl
    refine ⟨(r.submitted ++ res.1, res.2), ?_, ?_, ?_⟩
    · simp only [inputsFrom, renderAll, h1, h3', hres]
    · rw [List.map_append, hdates, h2, if_pos rfl]
      obtain ⟨pc, pb⟩ := pairDates_chain d (by omega) n' (C + d)
      show List.Chain' _ ((Picture.mk C []).date
        :: ((Picture.mk C []).date + 20000) :: pairDates d (C + d) n')
      refine List.chain'_cons'.mpr ⟨?_, List.chain'_cons'.mpr ⟨?_, pc⟩⟩
      · intro y hy
        simp at hy
        omega
      · intro y hy
        have := pb y (List.mem_of_mem_head? hy)
        omega
    · intro _
      rw [List.map_append, hdates, h2, if_pos rfl]
      rfl

/-- Witness for the amended C4: two frames at dates 1 and 20002. -/
theorem C4_monotone_amended_witness :
    ∃ res : List Picture × Int,
      renderAll 4 true Chroma.I420 (happyEnv (Picture.mk 0 [])) (fun _ => false) 0 0
        (inputsFrom 20001 1 2) = some res ∧
      List.Chain' (fun x y : Int => x < y) (res.1.map (fun q => q.date)) ∧
      (1 ≤ 2 →
        res.1.map (fun q => q.date)
          = 1 :: (1 + 20000) :: pairDates 20001 (1 + 20001) (2 - 1)) :=
  C4_monotone_amended 4 (Or.inl rfl) Chroma.I420 (Picture.mk 0 []) (fun _ => false) 0
    1 20001 (by decide) (by decide) 2
